import Mathlib

/-!
Verification of the MDP_MANAGER password-vault engine.

This file gives a shallow embedding, in Lean 4, of the Rust sources
`src/crypto.rs`, `src/storage.rs`, `src/models.rs` and
`src/password_generator.rs`:

* bytes are `Fin 256`, byte payloads are `List Byte`, and text is
  `List Char` (the `Str` abbreviation);
* the external cryptographic primitives (the AES-256-GCM cipher of the
  `aes_gcm` crate and the Argon2id KDF of the `argon2` crate) and the
  `serde_json` codecs are not code of this repository: they are embedded
  as an abstract `Externals` record of functions, whose documented
  contracts (AEAD round-trip, 32-byte KDF output, serde round-trip) form
  the `Externals.Contracts` predicate;
* the base64 codec (the `base64` crate's STANDARD engine, canonical
  padding) is embedded concretely, because the repository's error
  mapping around it is under scrutiny;
* everything written by this repository's own code — the length checks
  and error mapping of `encrypt`/`decrypt`, the `save_vault`/`load_vault`
  orchestration, the record model with its CRUD operations and search
  predicate, and the password generator — is translated statement by
  statement from the source.

Clock reads (`Utc::now()`) and random draws (`OsRng`, `thread_rng`) are
passed as explicit parameters.  A fully executable instantiation of the
external primitives (`toyExternals`, built from the length-prefixed
`Codec` section) serves to evaluate the engine on concrete inputs.
-/

set_option maxRecDepth 40000

namespace MdpManager

/-- A byte, as in Rust's `u8`. -/
abbrev Byte := Fin 256

/-- Text, as a list of unicode scalar values (Rust `String`). -/
abbrev Str := List Char

/-- The `CryptoError` from `src/crypto.rs`.  `KdfError` carries a message
string in the source; the message content is irrelevant here. -/
inductive CryptoError
  | EncryptionFailed
  | DecryptionFailed
  | InvalidKey
  | KdfError (msg : Str)
deriving DecidableEq, Repr

/-- The `NONCE_SIZE` from `src/crypto.rs` (96 bits for AES-GCM). -/
def NONCE_SIZE : Nat := 12

/-! ### Base64 (the `base64` crate's STANDARD engine)

`encode_base64` and `decode_base64` in `src/crypto.rs` delegate to
`base64::engine::general_purpose::STANDARD`: the standard alphabet with
canonical `=` padding required on decode and trailing bits required to
be zero.  We embed that codec concretely. -/

/-- The standard base64 alphabet. -/
def B64_ALPHABET : List Char :=
  "ABCDEFGHIJKLMNOPQRSTUVWXYZabcdefghijklmnopqrstuvwxyz0123456789+/".data

/-- The alphabet character for a 6-bit value. -/
def b64Char (n : Nat) : Char := B64_ALPHABET.getD n 'A'

/-- The 6-bit value of an alphabet character, `none` for a character
outside the alphabet. -/
def b64Val (c : Char) : Option Nat := B64_ALPHABET.indexOf? c

/-- Truncate a natural number to a byte. -/
def byteOf (n : Nat) : Byte := ⟨n % 256, Nat.mod_lt _ (by decide)⟩

/-- The `encode_base64` from `src/crypto.rs`: standard base64 with padding. -/
def encode_base64 : List Byte → Str
  | [] => []
  | [a] => [b64Char (a.val / 4), b64Char (a.val % 4 * 16), '=', '=']
  | [a, b] => [b64Char (a.val / 4), b64Char (a.val % 4 * 16 + b.val / 16),
               b64Char (b.val % 16 * 4), '=']
  | a :: b :: c :: rest =>
      b64Char (a.val / 4) :: b64Char (a.val % 4 * 16 + b.val / 16) ::
      b64Char (b.val % 16 * 4 + c.val / 64) :: b64Char (c.val % 64) ::
      encode_base64 rest

/-- Raw base64 decoding (the crate's `decode`): requires canonical
padding, a length that is a multiple of four, and zero trailing bits. -/
def decodeB64 : Str → Option (List Byte)
  | [] => some []
  | c1 :: c2 :: c3 :: c4 :: rest =>
    match b64Val c1, b64Val c2 with
    | some v1, some v2 =>
      if c3 = '=' then
        if c4 = '=' ∧ rest = [] ∧ v2 % 16 = 0 then
          some [byteOf (v1 * 4 + v2 / 16)]
        else none
      else
        match b64Val c3 with
        | some v3 =>
          if c4 = '=' then
            if rest = [] ∧ v3 % 4 = 0 then
              some [byteOf (v1 * 4 + v2 / 16), byteOf (v2 % 16 * 16 + v3 / 4)]
            else none
          else
            match b64Val c4 with
            | some v4 =>
                (decodeB64 rest).map
                  (fun bs => byteOf (v1 * 4 + v2 / 16) ::
                             byteOf (v2 % 16 * 16 + v3 / 4) ::
                             byteOf (v3 % 4 * 64 + v4) :: bs)
            | none => none
        | none => none
    | _, _ => none
  | _ => none

/-- The `decode_base64` from `src/crypto.rs`: the decoding error of the
crate is mapped to `CryptoError::DecryptionFailed` (line 166). -/
def decode_base64 (s : Str) : Except CryptoError (List Byte) :=
  match decodeB64 s with
  | some bs => .ok bs
  | none => .error .DecryptionFailed

/-! ### Authenticated cipher

`Aes256Gcm` of the `aes_gcm` crate is external code; `Aead` abstracts
its two directions: `enc key nonce plaintext` produces the ciphertext
with the 16-byte tag appended, and `dec` verifies the tag, returning
`none` on mismatch.  (The crate's encrypt direction only fails on
plaintexts of astronomical length, a resource bound outside this model,
so `enc` is total; `new_from_slice` never fails on the 32-byte keys the
guarded code paths hand it.) -/
structure Aead where
  enc : List Byte → List Byte → List Byte → List Byte
  dec : List Byte → List Byte → List Byte → Option (List Byte)

/-- The documented AEAD contract: decrypting an encryption under the
same key and nonce recovers the plaintext. -/
def AeadCorrect (A : Aead) : Prop :=
  ∀ k n d, A.dec k n (A.enc k n d) = some d

/-- The `encrypt` from `src/crypto.rs` (lines 100-116): length checks on the
key and nonce, then the AEAD primitive. -/
def encrypt (A : Aead) (data key nonce : List Byte) :
    Except CryptoError (List Byte) :=
  if key.length ≠ 32 then .error .InvalidKey
  else if nonce.length ≠ NONCE_SIZE then .error .EncryptionFailed
  else .ok (A.enc key nonce data)

/-- The `decrypt` from `src/crypto.rs` (lines 119-135): length checks on the
key and nonce, then the AEAD primitive, whose failure (tag mismatch)
becomes `DecryptionFailed`. -/
def decrypt (A : Aead) (ciphertext key nonce : List Byte) :
    Except CryptoError (List Byte) :=
  if key.length ≠ 32 then .error .InvalidKey
  else if nonce.length ≠ NONCE_SIZE then .error .DecryptionFailed
  else
    match A.dec key nonce ciphertext with
    | some plaintext => .ok plaintext
    | none => .error .DecryptionFailed

/-! ### Record model (`src/models.rs`)

`Uuid` is an opaque 128-bit identifier and `DateTime<Utc>` an opaque
timestamp; both are embedded as `Nat`.  `Utc::now()` is passed
explicitly as a `now` parameter. -/

/-- The `Entry` from `src/models.rs`. -/
structure Entry where
  id : Nat
  name : Str
  login : Str
  password : Str
  url : Option Str
  notes : Option Str
  tags : List Str
  created_at : Nat
  modified_at : Nat
deriving DecidableEq, Repr

/-- The `Entry::update_modified`. -/
def Entry.update_modified (e : Entry) (now : Nat) : Entry :=
  { e with modified_at := now }

/-- Lowercasing of a string, modelling Rust's `str::to_lowercase`. -/
def toLowerStr (s : Str) : Str := s.map Char.toLower

/-- The `isPrefixOfStr needle hay`: models the leading-match step of Rust's
`str::contains`. -/
def isPrefixOfStr : Str → Str → Bool
  | [], _ => true
  | _ :: _, [] => false
  | a :: as, b :: bs => a = b && isPrefixOfStr as bs

/-- The `containsStr hay needle` models Rust's `hay.contains(needle)`:
substring occurrence. -/
def containsStr : Str → Str → Bool
  | hay, needle =>
    if isPrefixOfStr needle hay then true
    else
      match hay with
      | [] => false
      | _ :: rest => containsStr rest needle

/-- The `Entry::matches_search` from `src/models.rs` (lines 38-44). -/
def Entry.matches_search (e : Entry) (query : Str) : Bool :=
  let query_lower := toLowerStr query
  containsStr (toLowerStr e.name) query_lower
  || containsStr (toLowerStr e.login) query_lower
  || e.tags.any (fun t => containsStr (toLowerStr t) query_lower)
  || (match e.url with
      | some u => containsStr (toLowerStr u) query_lower
      | none => false)

/-- The specification's wording of the search predicate: the query is a
case-insensitive substring of `s`. -/
def CiSubstr (query s : Str) : Prop :=
  ∃ pre post, toLowerStr s = pre ++ toLowerStr query ++ post

/-- The `Vault` from `src/models.rs`. -/
structure Vault where
  entries : List Entry
  created_at : Nat
  modified_at : Nat
deriving DecidableEq, Repr

/-- The spec invariant: record identifiers are unique within a vault. -/
def Vault.idsDistinct (v : Vault) : Prop :=
  (v.entries.map Entry.id).Nodup

instance (v : Vault) : Decidable v.idsDistinct := by
  unfold Vault.idsDistinct
  infer_instance

/-- The `Vault::add_entry` (lines 64-67): push the entry, bump
`modified_at`. -/
def Vault.add_entry (v : Vault) (entry : Entry) (now : Nat) : Vault :=
  { v with entries := v.entries ++ [entry], modified_at := now }

/-- Replace the first entry whose id matches, as `iter_mut().find` does;
`none` when no entry matches. -/
def updateFirst (id : Nat) (upd : Entry) : List Entry → Option (List Entry)
  | [] => none
  | e :: rest =>
    if e.id = id then some (upd :: rest)
    else (updateFirst id upd rest).map (e :: ·)

/-- The `Vault::update_entry` (lines 69-75): if an entry with the given id
exists, overwrite it with `updated`, refresh its `modified_at`, and bump
the vault's `modified_at`; otherwise do nothing. -/
def Vault.update_entry (v : Vault) (id : Nat) (updated : Entry) (now : Nat) : Vault :=
  match updateFirst id (updated.update_modified now) v.entries with
  | some es => { v with entries := es, modified_at := now }
  | none => v

/-- The `Vault::delete_entry` (lines 77-80): retain the other entries and
bump `modified_at` unconditionally. -/
def Vault.delete_entry (v : Vault) (id : Nat) (now : Nat) : Vault :=
  { v with entries := v.entries.filter (fun e => e.id ≠ id), modified_at := now }

/-- The `Vault::get_entry`. -/
def Vault.get_entry (v : Vault) (id : Nat) : Option Entry :=
  v.entries.find? (fun e => e.id = id)

/-- The `VaultFile` from `src/models.rs`: the on-disk container with
textually encoded byte fields. -/
structure VaultFile where
  version : Nat
  kdf : Str
  salt : Str
  nonce : Str
  ciphertext : Str
deriving DecidableEq, Repr

/-! ### Storage engine (`src/storage.rs`)

`save_vault` and `load_vault` orchestrate external primitives.  The
externals — the AEAD cipher, the Argon2id KDF (`derive_key` wraps the
`argon2` crate and is a pure function of the passphrase and salt,
producing a 32-byte key) and the two `serde_json` codecs — are bundled
in `Externals`; their documented contracts form
`Externals.Contracts`. -/
structure Externals where
  aead : Aead
  /-- The `derive_key` (Argon2id, default cost parameters): `none` models a
  `KdfError`; on success the output is the 32-byte key. -/
  kdf : Str → List Byte → Option (List Byte)
  /-- The `serde_json::to_string` on `Vault`, as UTF-8 bytes. -/
  serVault : Vault → List Byte
  /-- The `serde_json::from_slice` on `Vault`. -/
  deVault : List Byte → Option Vault
  /-- The `serde_json::to_string_pretty` on `VaultFile`. -/
  serFile : VaultFile → Str
  /-- The `serde_json::from_str` on `VaultFile`. -/
  deFile : Str → Option VaultFile

/-- The documented contracts of the external components: the cipher
round-trips, derived keys are 32 bytes, and both serde codecs
round-trip (`serde_json` deserializing the document it produced for
these derive types). -/
def Externals.Contracts (E : Externals) : Prop :=
  AeadCorrect E.aead
  ∧ (∀ p s k, E.kdf p s = some k → k.length = 32)
  ∧ (∀ v, E.deVault (E.serVault v) = some v)
  ∧ (∀ f, E.deFile (E.serFile f) = some f)

/-- The `Box<dyn Error>` result of the storage layer, split by source:
crypto errors, serde format errors, and I/O errors. -/
inductive StorageError
  | crypto (e : CryptoError)
  | serde
  | ioError
deriving DecidableEq, Repr

/-- The `save_vault` from `src/storage.rs` (lines 6-40), up to but not
including the `fs::write` call: serialize, derive, encrypt, build the
container, encode it.  The salt and nonce, drawn from `OsRng` in the
source (16 and 12 bytes), are explicit parameters. -/
def save_vault (E : Externals) (vault : Vault) (salt nonce : List Byte)
    (master_password : Str) : Except StorageError Str :=
  let plaintext := E.serVault vault
  match E.kdf master_password salt with
  | none => .error (.crypto (.KdfError []))
  | some key =>
    match encrypt E.aead plaintext key nonce with
    | .error e => .error (.crypto e)
    | .ok ciphertext =>
      let vault_file : VaultFile :=
        { version := 1
          kdf := "argon2id".data
          salt := encode_base64 salt
          nonce := encode_base64 nonce
          ciphertext := encode_base64 ciphertext }
      .ok (E.serFile vault_file)

/-- The `load_vault` from `src/storage.rs` (lines 42-67), acting on the file
contents: parse the container, decode the three base64 fields, derive
the key from the stored salt, decrypt with the stored nonce,
deserialize the vault. -/
def load_vault (E : Externals) (contents : Str) (master_password : Str) :
    Except StorageError Vault :=
  match E.deFile contents with
  | none => .error .serde
  | some vault_file =>
    match decode_base64 vault_file.salt with
    | .error e => .error (.crypto e)
    | .ok salt =>
      match decode_base64 vault_file.nonce with
      | .error e => .error (.crypto e)
      | .ok nonce =>
        match decode_base64 vault_file.ciphertext with
        | .error e => .error (.crypto e)
        | .ok ciphertext =>
          match E.kdf master_password salt with
          | none => .error (.crypto (.KdfError []))
          | some key =>
            match decrypt E.aead ciphertext key nonce with
            | .error e => .error (.crypto e)
            | .ok plaintext =>
              match E.deVault plaintext with
              | none => .error .serde
              | some vault => .ok vault

/-! ### Persistence (`fs::write`)

`save_vault` ends with `fs::write(path, json)`, which per the standard
library's documented semantics creates or truncates the destination and
then writes the buffer — it is not atomic: it can fail after truncating
and writing a prefix.  The destination file is modelled as an optional
content, and the write outcome (chosen by the environment) either
replaces the content or leaves a prefix of the new content behind. -/
structure FsState where
  file : Option Str
deriving DecidableEq, Repr

/-- Outcome of one `fs::write` call, chosen by the environment: full
success, or an I/O failure after `k` bytes were written. -/
inductive WriteOutcome
  | ok
  | failAfter (k : Nat)
deriving DecidableEq, Repr

/-- Modelled from the documented semantics of `std::fs::write`:
truncate-then-write, with a possible mid-write failure. -/
def fsWrite (content : Str) (o : WriteOutcome) (_fs : FsState) :
    Except StorageError Unit × FsState :=
  match o with
  | .ok => (.ok (), ⟨some content⟩)
  | .failAfter k => (.error .ioError, ⟨some (content.take k)⟩)

/-- The `save_vault` including its final `fs::write` step: the pure
preparation of the container text, then the persist. -/
def save_vault_fs (E : Externals) (vault : Vault) (salt nonce : List Byte)
    (master_password : Str) (o : WriteOutcome) (fs : FsState) :
    Except StorageError Unit × FsState :=
  match save_vault E vault salt nonce master_password with
  | .error e => (.error e, fs)
  | .ok json => fsWrite json o fs

/-! ### Password generator (`src/password_generator.rs`)

`thread_rng().gen_range(0..charset.len())` is modelled by an explicit
draw function `rand`, reduced into range with `% charset.length` (the
source's RNG guarantees in-range draws by contract). -/

/-- The `PasswordGeneratorOptions`. -/
structure PasswordGeneratorOptions where
  length : Nat
  include_uppercase : Bool
  include_lowercase : Bool
  include_numbers : Bool
  include_symbols : Bool
  avoid_ambiguous : Bool
deriving DecidableEq, Repr

def UPPERCASE : Str := "ABCDEFGHIJKLMNOPQRSTUVWXYZ".data
def LOWERCASE : Str := "abcdefghijklmnopqrstuvwxyz".data
def NUMBERS : Str := "0123456789".data
def SYMBOLS : Str := "!@#$%^&*()_+-=[]\x7b\x7d|;:,.<>?".data
def AMBIGUOUS : Str := "il1Lo0O".data

/-- The `generate_password` from `src/password_generator.rs` (lines 31-68):
build the charset from the enabled classes, reject a zero length or an
empty charset, drop ambiguous characters on request, then draw
`length` characters. -/
def generate_password (options : PasswordGeneratorOptions)
    (rand : Nat → Nat) : Except Str Str :=
  if options.length = 0 then .error ("La longueur doit etre > 0".data)
  else
    let charset : Str :=
      (if options.include_uppercase then UPPERCASE else [])
      ++ (if options.include_lowercase then LOWERCASE else [])
      ++ (if options.include_numbers then NUMBERS else [])
      ++ (if options.include_symbols then SYMBOLS else [])
    if charset = [] then
      .error ("Au moins un type de caractere doit etre selectionne".data)
    else
      let charset : Str :=
        if options.avoid_ambiguous then
          charset.filter (fun c => !AMBIGUOUS.contains c)
        else charset
      .ok ((List.range options.length).map
        (fun i => charset.getD (rand i % charset.length) 'A'))

/-! ### A length-prefixed codec

A small, fully executable codec over an arbitrary alphabet, used to
instantiate the abstract serde components with functions that provably
round-trip, so that the engine theorems can be exercised on concrete
inputs.  Numbers are unary (`z`…`z` then `o`), payloads are
length-prefixed. -/

section Codec

variable {α : Type} [DecidableEq α] {β : Type}

/-- Unary encoding of a natural number. -/
def encU (z o : α) (n : Nat) : List α := List.replicate n z ++ [o]

/-- Decode a unary number, returning it with the remaining input. -/
def decU (z o : α) : List α → Option (Nat × List α)
  | [] => none
  | x :: rest =>
    if x = o then some (0, rest)
    else if x = z then (decU z o rest).map (fun p => (p.1 + 1, p.2))
    else none

/-- A length-prefixed block of alphabet symbols. -/
def encBlk (z o : α) (s : List α) : List α := encU z o s.length ++ s

/-- Decode a length-prefixed block. -/
def decBlk (z o : α) (l : List α) : Option (List α × List α) :=
  match decU z o l with
  | some (n, r) => if n ≤ r.length then some (r.take n, r.drop n) else none
  | none => none

/-- A length-prefixed list of items. -/
def encListW (z o : α) (enc : β → List α) (l : List β) : List α :=
  encU z o l.length ++ (l.map enc).flatten

/-- Decode exactly `n` items. -/
def decListN (dec : List α → Option (β × List α)) :
    Nat → List α → Option (List β × List α)
  | 0, r => some ([], r)
  | n + 1, r =>
    match dec r with
    | some (b, r1) =>
      match decListN dec n r1 with
      | some (bs, r2) => some (b :: bs, r2)
      | none => none
    | none => none

/-- Decode a length-prefixed list of items. -/
def decListW (z o : α) (dec : List α → Option (β × List α)) (l : List α) :
    Option (List β × List α) :=
  match decU z o l with
  | some (n, r) => decListN dec n r
  | none => none

/-- A tagged optional item. -/
def encOptW (z o : α) (enc : β → List α) : Option β → List α
  | none => encU z o 0
  | some b => encU z o 1 ++ enc b

/-- Decode a tagged optional item. -/
def decOptW (z o : α) (dec : List α → Option (β × List α)) (l : List α) :
    Option (Option β × List α) :=
  match decU z o l with
  | some (0, r) => some (none, r)
  | some (1, r) => (dec r).map (fun p => (some p.1, p.2))
  | some _ => none
  | none => none

/-- A character, by its unicode scalar value. -/
def encChar (z o : α) (c : Char) : List α := encU z o c.toNat

/-- Decode a character. -/
def decChar (z o : α) (l : List α) : Option (Char × List α) :=
  (decU z o l).map (fun p => (Char.ofNat p.1, p.2))

/-- A string, as a length-prefixed list of characters. -/
def encStrW (z o : α) (s : Str) : List α := encListW z o (encChar z o) s

/-- Decode a string. -/
def decStrW (z o : α) (l : List α) : Option (Str × List α) :=
  decListW z o (decChar z o) l

/-- An `Entry`, field by field. -/
def encEntryW (z o : α) (e : Entry) : List α :=
  encU z o e.id ++ encStrW z o e.name ++ encStrW z o e.login
  ++ encStrW z o e.password ++ encOptW z o (encStrW z o) e.url
  ++ encOptW z o (encStrW z o) e.notes ++ encListW z o (encStrW z o) e.tags
  ++ encU z o e.created_at ++ encU z o e.modified_at

/-- Decode an `Entry`. -/
def decEntryW (z o : α) (l : List α) : Option (Entry × List α) :=
  match decU z o l with
  | none => none
  | some (id, r1) =>
    match decStrW z o r1 with
    | none => none
    | some (name, r2) =>
      match decStrW z o r2 with
      | none => none
      | some (login, r3) =>
        match decStrW z o r3 with
        | none => none
        | some (password, r4) =>
          match decOptW z o (decStrW z o) r4 with
          | none => none
          | some (url, r5) =>
            match decOptW z o (decStrW z o) r5 with
            | none => none
            | some (notes, r6) =>
              match decListW z o (decStrW z o) r6 with
              | none => none
              | some (tags, r7) =>
                match decU z o r7 with
                | none => none
                | some (created, r8) =>
                  match decU z o r8 with
                  | none => none
                  | some (modified, r9) =>
                    some (⟨id, name, login, password, url, notes, tags,
                           created, modified⟩, r9)

/-- A `Vault`, as its entry list and two timestamps. -/
def encVaultW (z o : α) (v : Vault) : List α :=
  encListW z o (encEntryW z o) v.entries
  ++ encU z o v.created_at ++ encU z o v.modified_at

/-- Decode a whole `Vault` (no trailing input allowed). -/
def decVaultW (z o : α) (l : List α) : Option Vault :=
  match decListW z o (decEntryW z o) l with
  | none => none
  | some (entries, r1) =>
    match decU z o r1 with
    | none => none
    | some (created, r2) =>
      match decU z o r2 with
      | some (modified, []) => some ⟨entries, created, modified⟩
      | _ => none

/-- A `VaultFile`, as its version and four text fields. -/
def encFileW (z o : Char) (f : VaultFile) : Str :=
  encU z o f.version ++ encBlk z o f.kdf ++ encBlk z o f.salt
  ++ encBlk z o f.nonce ++ encBlk z o f.ciphertext

/-- Decode a whole `VaultFile` (no trailing input allowed). -/
def decFileW (z o : Char) (l : Str) : Option VaultFile :=
  match decU z o l with
  | none => none
  | some (version, r1) =>
    match decBlk z o r1 with
    | none => none
    | some (kdf, r2) =>
      match decBlk z o r2 with
      | none => none
      | some (salt, r3) =>
        match decBlk z o r3 with
        | none => none
        | some (nonce, r4) =>
          match decBlk z o r4 with
          | some (ciphertext, []) =>
              some ⟨version, kdf, salt, nonce, ciphertext⟩
          | _ => none

end Codec

/-! ### Executable instantiation of the externals -/

/-- A toy AEAD: shift every byte by 7 (its inverse shifts back).  It
satisfies `AeadCorrect` and makes the engine executable. -/
def toyAead : Aead where
  enc := fun _k _n d => d.map (fun b => b + 7)
  dec := fun _k _n c => some (c.map (fun b => b - 7))

/-- A toy KDF: a constant 32-byte key. -/
def toyKdf : Str → List Byte → Option (List Byte) :=
  fun _ _ => some (List.replicate 32 0)

/-- A toy KDF that always fails, exercising the `KdfError` path. -/
def toyKdfFail : Str → List Byte → Option (List Byte) :=
  fun _ _ => none

/-- Executable externals: toy cipher and KDF, length-prefixed codecs
over bytes (for the vault payload) and characters (for the container
document). -/
def toyExternals : Externals where
  aead := toyAead
  kdf := toyKdf
  serVault := encVaultW (0 : Byte) 1
  deVault := decVaultW (0 : Byte) 1
  serFile := encFileW 'a' 'b'
  deFile := decFileW 'a' 'b'

/-- The same externals with a failing KDF. -/
def toyExternalsKdfFail : Externals :=
  { toyExternals with kdf := toyKdfFail }

/-! ### Concrete inputs for evaluating the engine -/

/-- A concrete passphrase. -/
def pw0 : Str := ['p', 'w']

/-- A 16-byte salt, as `generate_salt` produces. -/
def salt16 : List Byte := List.replicate 16 3

/-- A 12-byte nonce, as `generate_nonce` produces. -/
def nonce12 : List Byte := List.replicate 12 5

/-- An empty vault. -/
def vault0 : Vault := ⟨[], 0, 0⟩

/-- A credential entry with id 0. -/
def entryA : Entry := ⟨0, "a".data, "u".data, "p".data, none, none, [], 0, 0⟩

/-- A credential entry with id 1. -/
def entryB : Entry := ⟨1, "b".data, "v".data, "q".data, none, none, [], 0, 0⟩

/-- A one-entry vault. -/
def vault1 : Vault := ⟨[entryA], 0, 0⟩

/-- A container produced by the engine on `vault1`. -/
def container1 : Str :=
  match save_vault toyExternals vault1 salt16 nonce12 pw0 with
  | .ok c => c
  | .error _ => []

/-- A 31-byte (invalid) key. -/
def key31 : List Byte := List.replicate 31 0

/-- A 32-byte key. -/
def key32 : List Byte := List.replicate 32 0

/-- An 11-byte (invalid) nonce. -/
def nonce11 : List Byte := List.replicate 11 0

/-- A container document whose `salt` field is not valid base64. -/
def badSaltContainer : Str :=
  toyExternals.serFile
    { version := 1
      kdf := "argon2id".data
      salt := ['!']
      nonce := encode_base64 nonce12
      ciphertext := encode_base64 [] }

deriving instance DecidableEq for Except

/-! ## Theorems -/

/-! ### Base64 lemmas -/

theorem b64Val_b64Char_fin : ∀ n : Fin 64, b64Val (b64Char n.val) = some n.val := by
  decide

theorem b64Val_b64Char {n : Nat} (h : n < 64) : b64Val (b64Char n) = some n :=
  b64Val_b64Char_fin ⟨n, h⟩

theorem b64Char_ne_eq_fin : ∀ n : Fin 64, b64Char n.val ≠ '=' := by
  decide

theorem b64Char_ne_eq {n : Nat} (h : n < 64) : b64Char n ≠ '=' :=
  b64Char_ne_eq_fin ⟨n, h⟩

/-- Base64 round-trip: decoding an encoding recovers the bytes. -/
theorem decodeB64_encode : ∀ l : List Byte, decodeB64 (encode_base64 l) = some l := by
  intro l
  induction l using encode_base64.induct with
  | case1 => rfl
  | case2 a =>
      have ha := a.isLt
      have e1 : byteOf (a.val / 4 * 4 + a.val % 4 * 16 / 16) = a := by
        apply Fin.ext; simp only [byteOf]; omega
      simp only [encode_base64, decodeB64,
        b64Val_b64Char (show a.val / 4 < 64 by omega),
        b64Val_b64Char (show a.val % 4 * 16 < 64 by omega)]
      rw [if_pos trivial, if_pos ⟨trivial, trivial, by omega⟩, e1]
  | case3 a b =>
      have ha := a.isLt
      have hb := b.isLt
      have e1 : byteOf (a.val / 4 * 4 + (a.val % 4 * 16 + b.val / 16) / 16) = a := by
        apply Fin.ext; simp only [byteOf]; omega
      have e2 : byteOf ((a.val % 4 * 16 + b.val / 16) % 16 * 16 + b.val % 16 * 4 / 4) = b := by
        apply Fin.ext; simp only [byteOf]; omega
      simp only [encode_base64, decodeB64,
        b64Val_b64Char (show a.val / 4 < 64 by omega),
        b64Val_b64Char (show a.val % 4 * 16 + b.val / 16 < 64 by omega),
        b64Val_b64Char (show b.val % 16 * 4 < 64 by omega)]
      rw [if_neg (b64Char_ne_eq (show b.val % 16 * 4 < 64 by omega)),
        if_pos trivial, if_pos ⟨trivial, by omega⟩, e1, e2]
  | case4 a b c rest ih =>
      have ha := a.isLt
      have hb := b.isLt
      have hc := c.isLt
      have e1 : byteOf (a.val / 4 * 4 + (a.val % 4 * 16 + b.val / 16) / 16) = a := by
        apply Fin.ext; simp only [byteOf]; omega
      have e2 : byteOf ((a.val % 4 * 16 + b.val / 16) % 16 * 16 + (b.val % 16 * 4 + c.val / 64) / 4) = b := by
        apply Fin.ext; simp only [byteOf]; omega
      have e3 : byteOf ((b.val % 16 * 4 + c.val / 64) % 4 * 64 + c.val % 64) = c := by
        apply Fin.ext; simp only [byteOf]; omega
      simp only [encode_base64, decodeB64,
        b64Val_b64Char (show a.val / 4 < 64 by omega),
        b64Val_b64Char (show a.val % 4 * 16 + b.val / 16 < 64 by omega),
        b64Val_b64Char (show b.val % 16 * 4 + c.val / 64 < 64 by omega),
        b64Val_b64Char (show c.val % 64 < 64 by omega)]
      rw [if_neg (b64Char_ne_eq (show b.val % 16 * 4 + c.val / 64 < 64 by omega)),
        if_neg (b64Char_ne_eq (show c.val % 64 < 64 by omega)), ih]
      simp only [Option.map_some', e1, e2, e3]

/-- The `decode_base64` inverts `encode_base64`. -/
theorem decode_base64_encode (l : List Byte) :
    decode_base64 (encode_base64 l) = .ok l := by
  simp only [decode_base64, decodeB64_encode]

/-! ### Codec lemmas -/

section CodecSpec

variable {α : Type} [DecidableEq α] {β : Type} {z o : α}

theorem decU_encU (h : z ≠ o) (n : Nat) (rest : List α) :
    decU z o (encU z o n ++ rest) = some (n, rest) := by
  induction n with
  | zero => simp [encU, decU]
  | succ n ih =>
      have hsh : encU z o (n + 1) ++ rest = z :: (encU z o n ++ rest) := by
        simp [encU, List.replicate_succ]
      rw [hsh]
      simp only [decU]
      rw [if_neg h, if_pos trivial, ih]
      rfl

theorem decU_encU_nil (h : z ≠ o) (n : Nat) :
    decU z o (encU z o n) = some (n, []) := by
  simpa using decU_encU h n []

theorem decBlk_encBlk (h : z ≠ o) (s rest : List α) :
    decBlk z o (encBlk z o s ++ rest) = some (s, rest) := by
  simp only [encBlk, List.append_assoc, decBlk, decU_encU h]
  rw [if_pos (by simp)]
  rw [List.take_left, List.drop_left]

theorem decBlk_encBlk_nil (h : z ≠ o) (s : List α) :
    decBlk z o (encBlk z o s) = some (s, []) := by
  simpa using decBlk_encBlk h s []

theorem decListN_enc {dec : List α → Option (β × List α)} {enc : β → List α}
    (hdec : ∀ (b : β) (rest : List α), dec (enc b ++ rest) = some (b, rest)) :
    ∀ (l : List β) (rest : List α),
      decListN dec l.length ((l.map enc).flatten ++ rest) = some (l, rest) := by
  intro l
  induction l with
  | nil => intro rest; simp [decListN]
  | cons b bs ih =>
      intro rest
      simp only [List.map_cons, List.flatten_cons, List.length_cons,
        List.append_assoc, decListN]
      rw [hdec]
      simp only [ih]

theorem decListW_enc (h : z ≠ o) {dec : List α → Option (β × List α)}
    {enc : β → List α}
    (hdec : ∀ (b : β) (rest : List α), dec (enc b ++ rest) = some (b, rest))
    (l : List β) (rest : List α) :
    decListW z o dec (encListW z o enc l ++ rest) = some (l, rest) := by
  simp only [encListW, List.append_assoc, decListW, decU_encU h,
    decListN_enc hdec]

theorem decOptW_enc (h : z ≠ o) {dec : List α → Option (β × List α)}
    {enc : β → List α}
    (hdec : ∀ (b : β) (rest : List α), dec (enc b ++ rest) = some (b, rest))
    (x : Option β) (rest : List α) :
    decOptW z o dec (encOptW z o enc x ++ rest) = some (x, rest) := by
  cases x with
  | none => simp [encOptW, decOptW, decU_encU h]
  | some b => simp [encOptW, List.append_assoc, decOptW, decU_encU h, hdec]

theorem decChar_enc (h : z ≠ o) (c : Char) (rest : List α) :
    decChar z o (encChar z o c ++ rest) = some (c, rest) := by
  simp [decChar, encChar, decU_encU h, Char.ofNat_toNat]

theorem decStrW_enc (h : z ≠ o) (s : Str) (rest : List α) :
    decStrW z o (encStrW z o s ++ rest) = some (s, rest) :=
  decListW_enc h (decChar_enc h) s rest

theorem decEntryW_enc (h : z ≠ o) (e : Entry) (rest : List α) :
    decEntryW z o (encEntryW z o e ++ rest) = some (e, rest) := by
  simp only [encEntryW, List.append_assoc, decEntryW, decU_encU h,
    decStrW_enc h, decOptW_enc h (decStrW_enc h),
    decListW_enc h (decStrW_enc h)]

theorem decVaultW_enc (h : z ≠ o) (v : Vault) :
    decVaultW z o (encVaultW z o v) = some v := by
  simp only [encVaultW, List.append_assoc, decVaultW,
    decListW_enc h (decEntryW_enc h), decU_encU h, decU_encU_nil h]

end CodecSpec

theorem decFileW_enc {z o : Char} (h : z ≠ o) (f : VaultFile) :
    decFileW z o (encFileW z o f) = some f := by
  simp only [encFileW, List.append_assoc, decFileW, decU_encU h,
    decBlk_encBlk h, decBlk_encBlk_nil h]

/-! ### The toy externals satisfy the documented contracts -/

theorem toyAead_correct : AeadCorrect toyAead := by
  intro k n d
  simp only [toyAead, List.map_map]
  congr 1
  conv_rhs => rw [← List.map_id d]
  apply List.map_congr_left
  intro b _
  simp [Function.comp]

theorem toyExternals_contracts : toyExternals.Contracts := by
  refine ⟨toyAead_correct, ?_, ?_, ?_⟩
  · intro p s k h
    simp only [toyExternals, toyKdf, Option.some_inj] at h
    rw [← h]
    simp
  · intro v
    exact decVaultW_enc (by decide) v
  · intro f
    exact decFileW_enc (by decide) f

/-! ### Substring lemmas -/

theorem isPrefixOfStr_iff (n hay : Str) :
    isPrefixOfStr n hay = true ↔ ∃ rest, hay = n ++ rest := by
  induction n generalizing hay with
  | nil => simp [isPrefixOfStr]
  | cons a as ih =>
    cases hay with
    | nil => simp [isPrefixOfStr]
    | cons b bs =>
      simp only [isPrefixOfStr, Bool.and_eq_true, decide_eq_true_eq, ih,
        List.cons_append]
      constructor
      · rintro ⟨rfl, rest, rfl⟩
        exact ⟨rest, rfl⟩
      · rintro ⟨rest, heq⟩
        injection heq with h1 h2
        exact ⟨h1.symm, rest, h2⟩

theorem containsStr_iff (hay n : Str) :
    containsStr hay n = true ↔ ∃ pre post, hay = pre ++ (n ++ post) := by
  induction hay with
  | nil =>
    constructor
    · intro hl
      by_cases hp : isPrefixOfStr n [] = true
      · obtain ⟨rest, hrest⟩ := (isPrefixOfStr_iff n []).mp hp
        exact ⟨[], rest, by simpa using hrest⟩
      · simp [containsStr, hp] at hl
    · rintro ⟨pre, post, heq⟩
      have hpre : pre = [] ∧ n ++ post = [] := by
        simpa using List.append_eq_nil.mp heq.symm
      have hn : n = [] := (List.append_eq_nil.mp hpre.2).1
      subst hn
      rfl
  | cons x xs ih =>
    constructor
    · intro hl
      by_cases hp : isPrefixOfStr n (x :: xs) = true
      · obtain ⟨rest, hrest⟩ := (isPrefixOfStr_iff n (x :: xs)).mp hp
        exact ⟨[], rest, by simpa using hrest⟩
      · have hl2 : containsStr xs n = true := by
          rw [containsStr, if_neg hp] at hl
          exact hl
        obtain ⟨pre, post, heq⟩ := ih.mp hl2
        exact ⟨x :: pre, post, by simp [heq]⟩
    · rintro ⟨pre, post, heq⟩
      cases pre with
      | nil =>
        have hp : isPrefixOfStr n (x :: xs) = true :=
          (isPrefixOfStr_iff n (x :: xs)).mpr ⟨post, by simpa using heq⟩
        rw [containsStr, if_pos hp]
      | cons y pre =>
        simp only [List.cons_append] at heq
        injection heq with h1 h2
        have hxs : containsStr xs n = true := ih.mpr ⟨pre, post, h2⟩
        rw [containsStr]
        by_cases hp : isPrefixOfStr n (x :: xs) = true
        · rw [if_pos hp]
        · rw [if_neg hp]
          exact hxs

/-! ### CRUD helper lemmas -/

theorem updateFirst_eq_none (i : Nat) (upd : Entry) (es : List Entry)
    (h : ∀ e ∈ es, e.id ≠ i) : updateFirst i upd es = none := by
  induction es with
  | nil => rfl
  | cons e rest ih =>
    simp only [updateFirst]
    rw [if_neg (h e (by simp)), ih (fun e' he' => h e' (by simp [he']))]
    rfl

theorem updateFirst_ids (i : Nat) (upd : Entry) (hupd : upd.id = i) :
    ∀ (es es' : List Entry), updateFirst i upd es = some es' →
      es'.map Entry.id = es.map Entry.id := by
  intro es
  induction es with
  | nil => intro es' h; simp [updateFirst] at h
  | cons e rest ih =>
    intro es' h
    simp only [updateFirst] at h
    by_cases he : e.id = i
    · rw [if_pos he] at h
      cases h
      simp [hupd, he]
    · rw [if_neg he] at h
      cases hrec : updateFirst i upd rest with
      | none => rw [hrec] at h; simp at h
      | some es2 =>
        rw [hrec] at h
        simp only [Option.map_some', Option.some_inj] at h
        subst h
        simp [ih es2 hrec]

/-! ### Claim C8: the search predicate -/

/-- C8: `matches_search` returns true exactly when the query is a
case-insensitive substring of the record's name, of its login, of its
URL when present, or of at least one of its tags. -/
theorem matches_search_iff_ciSubstr (e : Entry) (q : Str) :
    e.matches_search q = true ↔
      CiSubstr q e.name ∨ CiSubstr q e.login
      ∨ (∃ u, e.url = some u ∧ CiSubstr q u)
      ∨ (∃ t ∈ e.tags, CiSubstr q t) := by
  cases hu : e.url with
  | none =>
    simp only [Entry.matches_search, hu, Bool.or_eq_true, List.any_eq_true,
      containsStr_iff, CiSubstr, List.append_assoc]
    constructor
    · rintro (((h | h) | ⟨t, ht, hsub⟩) | h)
      · exact Or.inl h
      · exact Or.inr (Or.inl h)
      · exact Or.inr (Or.inr (Or.inr ⟨t, ht, hsub⟩))
      · exact absurd h (by simp)
    · rintro (h | h | ⟨u, hu2, _⟩ | ⟨t, ht, hsub⟩)
      · exact Or.inl (Or.inl (Or.inl h))
      · exact Or.inl (Or.inl (Or.inr h))
      · exact absurd hu2 (by simp)
      · exact Or.inl (Or.inr ⟨t, ht, hsub⟩)
  | some u =>
    simp only [Entry.matches_search, hu, Bool.or_eq_true, List.any_eq_true,
      containsStr_iff, CiSubstr, List.append_assoc, Option.some.injEq]
    constructor
    · rintro (((h | h) | ⟨t, ht, hsub⟩) | h)
      · exact Or.inl h
      · exact Or.inr (Or.inl h)
      · exact Or.inr (Or.inr (Or.inr ⟨t, ht, hsub⟩))
      · exact Or.inr (Or.inr (Or.inl ⟨u, rfl, h⟩))
    · rintro (h | h | ⟨u2, hu2, hsub⟩ | ⟨t, ht, hsub⟩)
      · exact Or.inl (Or.inl (Or.inl h))
      · exact Or.inl (Or.inl (Or.inr h))
      · subst hu2
        exact Or.inr hsub
      · exact Or.inl (Or.inr ⟨t, ht, hsub⟩)

/-! ### Claim C9: update with a missing id is a no-op -/

/-- C9: when no entry carries the requested id, `update_entry` returns
the vault entirely unchanged — same entries, same `modified_at`. -/
theorem update_entry_missing_id (v : Vault) (i : Nat) (upd : Entry)
    (now : Nat) (h : ∀ e ∈ v.entries, e.id ≠ i) :
    v.update_entry i upd now = v := by
  simp [Vault.update_entry, updateFirst_eq_none i _ v.entries h]

/-- Witness for C9 at a concrete vault and absent id. -/
theorem update_entry_missing_id_witness :
    (∀ e ∈ vault1.entries, e.id ≠ 7)
    ∧ vault1.update_entry 7 entryB 5 = vault1 :=
  ⟨by decide, update_entry_missing_id vault1 7 entryB 5 (by decide)⟩

/-! ### Claim C10: delete with a missing id still bumps `modified_at` -/

/-- C10: `delete_entry` sets the vault's `modified_at` to the current
time for every id, including one no entry carries — in which case the
entry list (and `created_at`) is left unchanged. -/
theorem delete_entry_missing_id (v : Vault) (i now : Nat) :
    (v.delete_entry i now).modified_at = now
    ∧ ((∀ e ∈ v.entries, e.id ≠ i) →
        v.delete_entry i now = { v with modified_at := now }) := by
  constructor
  · rfl
  · intro h
    simp only [Vault.delete_entry]
    congr 1
    rw [List.filter_eq_self]
    intro e he
    simpa using h e he

/-- Witness for C10 at a concrete vault and absent id. -/
theorem delete_entry_missing_id_witness :
    (vault1.delete_entry 7 5).modified_at = 5
    ∧ (∀ e ∈ vault1.entries, e.id ≠ 7)
    ∧ vault1.delete_entry 7 5 = { vault1 with modified_at := 5 } := by
  obtain ⟨h1, h2⟩ := delete_entry_missing_id vault1 7 5
  exact ⟨h1, by decide, h2 (by decide)⟩

/-! ### Claim C6: uniqueness of record identifiers under CRUD

The claim as stated is false: `add_entry` pushes unconditionally, so
adding an entry whose id is already present breaks distinctness, and
`update_entry` installs the replacement record with the replacement's
own id, which may collide with another entry. -/

/-- C6 counterexample: a vault with distinct ids, after `add_entry` of
an entry with a duplicate id, or after `update_entry` installing a
record whose id equals another entry's, no longer has distinct ids. -/
theorem crud_distinct_ids_counterexample :
    Vault.idsDistinct ⟨[entryA], 0, 0⟩
    ∧ ¬ Vault.idsDistinct (Vault.add_entry ⟨[entryA], 0, 0⟩ entryA 1)
    ∧ Vault.idsDistinct ⟨[entryA, entryB], 0, 0⟩
    ∧ ¬ Vault.idsDistinct (Vault.update_entry ⟨[entryA, entryB], 0, 0⟩ 0 entryB 1) := by
  refine ⟨?_, ?_, ?_, ?_⟩ <;> decide

/-- C6 amended: the mutations preserve distinct ids provided the added
entry's id is fresh and the replacement record keeps the id it
replaces; `delete_entry` preserves distinctness unconditionally. -/
theorem crud_preserves_idsDistinct (v : Vault) (e : Entry) (i : Nat)
    (upd : Entry) (now : Nat) (hv : v.idsDistinct) :
    (e.id ∉ v.entries.map Entry.id → (v.add_entry e now).idsDistinct)
    ∧ (upd.id = i → (v.update_entry i upd now).idsDistinct)
    ∧ (v.delete_entry i now).idsDistinct := by
  refine ⟨?_, ?_, ?_⟩
  · intro hfresh
    simp only [Vault.idsDistinct, Vault.add_entry, List.map_append,
      List.map_cons, List.map_nil] at *
    rw [List.nodup_append]
    exact ⟨hv, List.nodup_singleton _, by simpa [List.disjoint_singleton] using hfresh⟩
  · intro hid
    simp only [Vault.idsDistinct, Vault.update_entry] at *
    cases hupd : updateFirst i (upd.update_modified now) v.entries with
    | none => exact hv
    | some es =>
      have hids : es.map Entry.id = v.entries.map Entry.id :=
        updateFirst_ids i (upd.update_modified now)
          (by simpa [Entry.update_modified] using hid) v.entries es hupd
      simpa [hids] using hv
  · simp only [Vault.idsDistinct, Vault.delete_entry] at *
    have hsub : List.Sublist (v.entries.filter (fun e2 => e2.id ≠ i)) v.entries :=
      List.filter_sublist v.entries
    exact List.Nodup.sublist (hsub.map Entry.id) hv

/-- Witness for C6 (amended) at concrete vaults and entries. -/
theorem crud_preserves_idsDistinct_witness :
    (Vault.add_entry ⟨[entryA], 0, 0⟩ entryB 2).idsDistinct
    ∧ (Vault.update_entry ⟨[entryA], 0, 0⟩ 0 entryA 2).idsDistinct
    ∧ (Vault.delete_entry ⟨[entryA], 0, 0⟩ 0 2).idsDistinct := by
  obtain ⟨h1, h2, h3⟩ :=
    crud_preserves_idsDistinct ⟨[entryA], 0, 0⟩ entryB 0 entryA 2 (by decide)
  exact ⟨h1 (by decide), h2 (by decide), h3⟩

/-! ### Claim C7: the password generator -/

theorem getD_mem_of_lt {α : Type} {l : List α} {n : Nat} {d : α}
    (h : n < l.length) : l.getD n d ∈ l := by
  unfold List.getD
  rw [List.get?_eq_get h]
  simpa using List.get_mem l n h

/-- C7: with length 20 and all four classes enabled, `generate_password`
succeeds with a 20-character string drawn from the enabled classes, and
avoiding the ambiguous characters when `avoid_ambiguous` is set. -/
theorem generate_password_spec (rand : Nat → Nat) (avoid : Bool) :
    ∃ pw, generate_password ⟨20, true, true, true, true, avoid⟩ rand = .ok pw
      ∧ pw.length = 20
      ∧ ∀ c ∈ pw, c ∈ UPPERCASE ++ LOWERCASE ++ NUMBERS ++ SYMBOLS
          ∧ (avoid = true → c ∉ AMBIGUOUS) := by
  cases avoid with
  | false =>
    have hgen : generate_password ⟨20, true, true, true, true, false⟩ rand
        = .ok ((List.range 20).map (fun i =>
            (UPPERCASE ++ LOWERCASE ++ NUMBERS ++ SYMBOLS).getD
              (rand i % (UPPERCASE ++ LOWERCASE ++ NUMBERS ++ SYMBOLS).length)
              'A')) := rfl
    refine ⟨_, hgen, by simp, ?_⟩
    intro c hc
    rw [List.mem_map] at hc
    obtain ⟨i, hi, rfl⟩ := hc
    have hpos : 0 < (UPPERCASE ++ LOWERCASE ++ NUMBERS ++ SYMBOLS).length := by
      decide
    have hmem := getD_mem_of_lt (d := 'A')
      (Nat.mod_lt (rand i) hpos)
    exact ⟨hmem, fun habs => by simp at habs⟩
  | true =>
    have hgen : generate_password ⟨20, true, true, true, true, true⟩ rand
        = .ok ((List.range 20).map (fun i =>
            ((UPPERCASE ++ LOWERCASE ++ NUMBERS ++ SYMBOLS).filter
                (fun c => !AMBIGUOUS.contains c)).getD
              (rand i % ((UPPERCASE ++ LOWERCASE ++ NUMBERS ++ SYMBOLS).filter
                (fun c => !AMBIGUOUS.contains c)).length)
              'A')) := rfl
    refine ⟨_, hgen, by simp, ?_⟩
    intro c hc
    rw [List.mem_map] at hc
    obtain ⟨i, hi, rfl⟩ := hc
    have hpos : 0 < ((UPPERCASE ++ LOWERCASE ++ NUMBERS ++ SYMBOLS).filter
        (fun c => !AMBIGUOUS.contains c)).length := by decide
    have hmem := getD_mem_of_lt (d := 'A')
      (Nat.mod_lt (rand i) hpos)
    refine ⟨(List.mem_filter.mp hmem).1, fun _ => ?_⟩
    have hflt := (List.mem_filter.mp hmem).2
    simpa using hflt

/-! ### Claim C2: cipher round-trip -/

/-- C2: for a 32-byte key and 12-byte nonce, `encrypt` succeeds and
`decrypt` of its output under the same key and nonce returns the
original payload. -/
theorem encrypt_decrypt_roundtrip (A : Aead) (hA : AeadCorrect A)
    (data key nonce : List Byte)
    (hk : key.length = 32) (hn : nonce.length = NONCE_SIZE) :
    ∃ ct, encrypt A data key nonce = .ok ct
      ∧ decrypt A ct key nonce = .ok data := by
  refine ⟨A.enc key nonce data, ?_, ?_⟩
  · unfold encrypt
    rw [if_neg (by simp [hk]), if_neg (by simp [hn])]
  · unfold decrypt
    rw [if_neg (by simp [hk]), if_neg (by simp [hn]), hA]

/-- Witness for C2 at the toy cipher and a concrete payload. -/
theorem encrypt_decrypt_roundtrip_witness :
    encrypt toyAead [1, 2] key32 nonce12 = .ok [8, 9]
    ∧ decrypt toyAead [8, 9] key32 nonce12 = .ok [1, 2] := by
  obtain ⟨ct, h1, h2⟩ := encrypt_decrypt_roundtrip toyAead toyAead_correct
    [1, 2] key32 nonce12 (by decide) (by decide)
  have hct : ct = [8, 9] := by
    have h3 : encrypt toyAead [1, 2] key32 nonce12 = .ok [8, 9] := by decide
    rw [h1] at h3
    exact Except.ok.inj h3
  rw [hct] at h1 h2
  exact ⟨h1, h2⟩

/-! ### Claim C3: cipher length checks -/

/-- C3: for every cipher primitive `A` (the checks precede any use of
the primitive, so the conclusions hold for all `A` uniformly), a key
that is not 32 bytes makes `encrypt` and `decrypt` fail with
`InvalidKey`, and with a 32-byte key a nonce that is not 12 bytes makes
`encrypt` fail with `EncryptionFailed` and `decrypt` with
`DecryptionFailed`. -/
theorem cipher_length_checks (A : Aead) (data key nonce : List Byte) :
    (key.length ≠ 32 →
      encrypt A data key nonce = .error .InvalidKey
      ∧ decrypt A data key nonce = .error .InvalidKey)
    ∧ (key.length = 32 → nonce.length ≠ NONCE_SIZE →
      encrypt A data key nonce = .error .EncryptionFailed
      ∧ decrypt A data key nonce = .error .DecryptionFailed) := by
  constructor
  · intro hk
    constructor
    · unfold encrypt
      rw [if_pos hk]
    · unfold decrypt
      rw [if_pos hk]
  · intro hk hn
    constructor
    · unfold encrypt
      rw [if_neg (by simp [hk]), if_pos hn]
    · unfold decrypt
      rw [if_neg (by simp [hk]), if_pos hn]

/-- Witness for C3 at concrete invalid keys and nonces. -/
theorem cipher_length_checks_witness :
    encrypt toyAead [] key31 nonce12 = .error .InvalidKey
    ∧ decrypt toyAead [] key31 nonce12 = .error .InvalidKey
    ∧ encrypt toyAead [] key32 nonce11 = .error .EncryptionFailed
    ∧ decrypt toyAead [] key32 nonce11 = .error .DecryptionFailed := by
  obtain ⟨h1, h2⟩ := (cipher_length_checks toyAead [] key31 nonce12).1 (by decide)
  obtain ⟨h3, h4⟩ :=
    (cipher_length_checks toyAead [] key32 nonce11).2 (by decide) (by decide)
  exact ⟨h1, h2, h3, h4⟩

/-! ### Claim C1: vault round-trip -/

/-- C1: loading the container produced by a successful save with the
same passphrase returns the saved vault — in particular the same record
set: same entry count, identifiers and field values. -/
theorem save_load_roundtrip (E : Externals) (hE : E.Contracts)
    (v : Vault) (salt nonce : List Byte) (pw container : Str)
    (hsave : save_vault E v salt nonce pw = .ok container) :
    load_vault E container pw = .ok v := by
  obtain ⟨hA, hkdf, hserV, hserF⟩ := hE
  unfold save_vault at hsave
  cases hk : E.kdf pw salt with
  | none => rw [hk] at hsave; simp at hsave
  | some key =>
    rw [hk] at hsave
    simp only [] at hsave
    have hklen := hkdf pw salt key hk
    cases henc : encrypt E.aead (E.serVault v) key nonce with
    | error e => rw [henc] at hsave; simp at hsave
    | ok ct =>
      rw [henc] at hsave
      simp only [Except.ok.injEq] at hsave
      subst hsave
      have hnonce12 : nonce.length = NONCE_SIZE := by
        by_contra hnl
        unfold encrypt at henc
        rw [if_neg (by simp [hklen]), if_pos hnl] at henc
        simp at henc
      have hct : ct = E.aead.enc key nonce (E.serVault v) := by
        unfold encrypt at henc
        rw [if_neg (by simp [hklen]), if_neg (by simp [hnonce12])] at henc
        exact (Except.ok.inj henc).symm
      unfold load_vault
      rw [hserF]
      simp only [decode_base64_encode, hk, hct]
      unfold decrypt
      rw [if_neg (by simp [hklen]), if_neg (by simp [hnonce12]), hA]
      simp only [hserV]

/-- Witness for C1: the toy externals on a one-entry vault. -/
theorem save_load_roundtrip_witness :
    save_vault toyExternals vault1 salt16 nonce12 pw0 = .ok container1
    ∧ load_vault toyExternals container1 pw0 = .ok vault1 := by
  have h1 : save_vault toyExternals vault1 salt16 nonce12 pw0
      = .ok container1 := by decide
  exact ⟨h1, save_load_roundtrip toyExternals toyExternals_contracts
    vault1 salt16 nonce12 pw0 container1 h1⟩

/-! ### Claim C4: error type of invalid base64

The claim is false on the code: `decode_base64` maps every base64
decoding failure to `CryptoError::DecryptionFailed` (crypto.rs line
166), the same variant as tag-verification failure — not a distinct
format error. -/

/-- C4 counterexample: on the invalid base64 string `"!"`,
`decode_base64` — and therefore `load_vault` on a container whose salt
field holds it — fails with `DecryptionFailed`, not with the format
(`serde`) error the claim requires. -/
theorem decode_invalid_counterexample :
    decode_base64 ['!'] = .error CryptoError.DecryptionFailed
    ∧ load_vault toyExternals badSaltContainer pw0
        = .error (.crypto .DecryptionFailed) := by
  constructor
  · rfl
  · decide

/-- C4 amended: every base64 decoding failure of a container byte field
surfaces as the cipher's `DecryptionFailed`, the same variant as
tag-verification failure. -/
theorem decode_base64_invalid (s : Str) (h : decodeB64 s = none) :
    decode_base64 s = .error CryptoError.DecryptionFailed := by
  simp [decode_base64, h]

/-- Witness for the amended C4 at a concrete invalid string. -/
theorem decode_base64_invalid_witness :
    decodeB64 ['!'] = none
    ∧ decode_base64 ['!'] = .error CryptoError.DecryptionFailed :=
  ⟨rfl, decode_base64_invalid ['!'] rfl⟩

/-! ### Claim C5: persistence and atomicity

The preparation of the container text is fully completed before any
file operation, so derivation, encryption and serialization failures
leave the destination untouched.  But the persist step is a plain
`fs::write` — truncate then write, not atomic — so an I/O failure
during the write itself can destroy the previous container. -/

/-- C5 counterexample: a save whose write step fails mid-way (here:
after 0 bytes) reports an I/O error yet leaves the destination file
changed — the previous container is not left untouched. -/
theorem save_atomicity_counterexample :
    (save_vault_fs toyExternals vault1 salt16 nonce12 pw0
        (.failAfter 0) ⟨some ['X']⟩).1 = .error .ioError
    ∧ (save_vault_fs toyExternals vault1 salt16 nonce12 pw0
        (.failAfter 0) ⟨some ['X']⟩).2 ≠ ⟨some ['X']⟩ := by
  constructor
  · decide
  · decide

/-- C5 amended: failures before the persist step (key derivation,
encryption, serialization) leave the destination untouched, and a
successful write installs exactly the prepared text; but the persist
step is a non-atomic truncate-and-write, and an I/O failure during it
leaves a prefix of the new text instead of the previous container. -/
theorem save_vault_fs_spec (E : Externals) (v : Vault)
    (salt nonce : List Byte) (pw : Str) (fs : FsState) :
    (∀ e o, save_vault E v salt nonce pw = .error e →
        save_vault_fs E v salt nonce pw o fs = (.error e, fs))
    ∧ (∀ json, save_vault E v salt nonce pw = .ok json →
        save_vault_fs E v salt nonce pw .ok fs = (.ok (), ⟨some json⟩))
    ∧ (∀ json k, save_vault E v salt nonce pw = .ok json →
        save_vault_fs E v salt nonce pw (.failAfter k) fs
          = (.error .ioError, ⟨some (json.take k)⟩)) := by
  refine ⟨?_, ?_, ?_⟩
  · intro e o h
    simp [save_vault_fs, h]
  · intro json h
    simp [save_vault_fs, h, fsWrite]
  · intro json k h
    simp [save_vault_fs, h, fsWrite]

/-- Witness for the amended C5: a pre-write failure (failing KDF)
leaves the file untouched; a successful write installs the container. -/
theorem save_vault_fs_spec_witness :
    save_vault_fs toyExternalsKdfFail vault1 salt16 nonce12 pw0
        (.failAfter 3) ⟨some ['X']⟩
      = (.error (.crypto (.KdfError [])), ⟨some ['X']⟩)
    ∧ save_vault_fs toyExternals vault1 salt16 nonce12 pw0 .ok ⟨some ['X']⟩
      = (.ok (), ⟨some container1⟩) := by
  constructor
  · exact (save_vault_fs_spec toyExternalsKdfFail vault1 salt16 nonce12
      pw0 ⟨some ['X']⟩).1 _ _ (by decide)
  · exact (save_vault_fs_spec toyExternals vault1 salt16 nonce12
      pw0 ⟨some ['X']⟩).2.1 container1 (by decide)

end MdpManager
